import Mathlib

/-!
Verification development for the Instant Scribe audio capture, VAD gating,
crash-safe spooling and batch-transcription pipeline.

The definitions below are a shallow embedding of the repository's code.
Where a component of the pipeline exists only in the specification (its
implementation is not part of the repository sources), the corresponding
definition carries a doc comment starting `Modelled from the spec:` and
follows the specification's wording.
-/

namespace InstantScribe

/-! ## Frame Source (`audio_listener.py`, `AudioStreamer`)

Embeds `AudioStreamer.__init__`: `self.chunk_size = int(self.rate *
frame_duration_ms / 1000)`.  Python performs true division followed by
`int` truncation; for non-negative operands whose quotient is exactly
representable (as at the defaults 16000 and 30) this agrees with natural
division. -/

structure AudioStreamer where
  rate : Nat
  frame_duration_ms : Nat
  channels : Nat := 1

def AudioStreamer.chunk_size (a : AudioStreamer) : Nat :=
  a.rate * a.frame_duration_ms / 1000

/-- Defaults of `AudioStreamer.__init__(self, rate=16000, frame_duration_ms=30)`. -/
def audioStreamerDefault : AudioStreamer :=
  { rate := 16000, frame_duration_ms := 30 }

/-- 16-bit PCM: two bytes per sample (`pyaudio.paInt16`). -/
def bytesPerSample : Nat := 2

/-- Blueprint audio-pipeline parameter table: `vad_chunk_size_bytes = 960`. -/
def vad_chunk_size_bytes : Nat := 960

/-! ## ConfigManager (`config_manager.py`)

The configuration file is JSON; `json.load` may return any JSON value
(object, array, string, number, boolean or null), so the embedding keeps
the full JSON datatype.  The file-system state records whether the config
file is absent (`FileNotFoundError`), present but unparseable
(`json.JSONDecodeError`), or parses to a JSON value, plus whether writes
succeed (`save_settings` swallows all write exceptions). -/

inductive Json where
  | null : Json
  | bool (b : Bool) : Json
  | num (n : Int) : Json
  | str (s : String) : Json
  | arr (elems : List Json) : Json
  | obj (fields : List (String × Json)) : Json

def Json.isObj : Json → Bool
  | .obj _ => true
  | _ => false

def Json.lookup (key : String) : Json → Option Json
  | .obj fields => (fields.find? (fun kv => kv.1 == key)).map (·.2)
  | _ => none

/-- `ConfigManager.defaults` from `config_manager.py`. -/
def configDefaults : Json :=
  .obj [("hotkey", .str "ctrl+alt+s"),
        ("vad_aggressiveness", .num 2),
        ("silence_threshold_ms", .num 700),
        ("show_notifications", .bool true),
        ("copy_to_clipboard_on_click", .bool true)]

/-- State of the config file on disk: `none` = file missing
(`FileNotFoundError`), `some none` = file present but not valid JSON
(`json.JSONDecodeError`), `some (some j)` = file parses to `j`.
`writable` models whether writing the file succeeds. -/
structure ConfigFs where
  config : Option (Option Json)
  writable : Bool

/-- `ConfigManager.save_settings`: writes the settings dictionary; all
write exceptions are caught and logged, leaving the file unchanged. -/
def save_settings (fs : ConfigFs) (s : Json) : ConfigFs :=
  if fs.writable then { fs with config := some (some s) } else fs

/-- `ConfigManager.load_settings`: returns `json.load` of the file when it
exists and parses; on `FileNotFoundError` or `json.JSONDecodeError` it
persists the defaults via `save_settings` and returns the defaults. -/
def load_settings (fs : ConfigFs) : Json × ConfigFs :=
  match fs.config with
  | some (some j) => (j, fs)
  | _ => (configDefaults, save_settings fs configDefaults)

/-! ## Watchdog (`watchdog.pyw`)

Embeds the `while True` supervision loop: launch the main application,
wait for it to terminate, log the exit code, sleep 5 seconds, relaunch.
The exit codes of successive runs are an arbitrary stream `exits`; the
trace after `n` completed iterations is the flat list of events. -/

inductive WatchdogEvent where
  | launch (attempt : Nat) : WatchdogEvent
  | terminated (attempt : Nat) (exitCode : Int) : WatchdogEvent
  | sleepSeconds (n : Nat) : WatchdogEvent
  deriving Repr, DecidableEq

/-- One body of the `while True:` loop in `watchdog.pyw`'s `main`. -/
def watchdogIteration (attempt : Nat) (exitCode : Int) : List WatchdogEvent :=
  [.launch attempt, .terminated attempt exitCode, .sleepSeconds 5]

/-- Event trace of the watchdog after `n` completed loop iterations, the
`i`-th launched process exiting with code `exits i`. -/
def watchdogTrace (exits : Nat → Int) : Nat → List WatchdogEvent
  | 0 => []
  | n + 1 => watchdogTrace exits n ++ watchdogIteration n (exits n)

def countLaunches (events : List WatchdogEvent) : Nat :=
  (events.filter (fun e => match e with | .launch _ => true | _ => false)).length

/-! ## Data model: audio frames

`AudioFrame` per the data model: monotonic sequence number and the
per-frame binary speech/non-speech classification produced by the
stateless detector (`webrtcvad.is_speech`); the PCM payload itself is
irrelevant to the properties below and is omitted. -/

structure AudioFrame where
  seq : Nat
  isSpeech : Bool
  deriving Repr, DecidableEq

/-! ## Durable Spooler

Modelled from the spec: the Durable Spooler implementation (Task 12/24 of
the task list) is not part of the repository sources.  Following §4.3 of
the spec, it buffers incoming frames and flushes a complete chunk
(`chunkFrames` frames, default 60 s of audio) to disk as a sequentially
numbered file, updating the `SpoolManifest` only after the chunk file
write is confirmed on stable storage.

`SpoolState.manifest` is the list of chunks the manifest acknowledges;
`SpoolState.unacked` are the frames not recoverable through the manifest
(the in-memory buffer, or — transiently during a flush — a chunk already
written to disk but not yet recorded in the manifest).  `spoolStep`
returns every crash-observable state passed through while one frame is
processed (including the mid-flush state between the chunk write and the
manifest update) together with the state the spooler continues from;
`spoolTrace` is the list of all crash-observable states over a frame
stream.  Restart recovery reconstructs exactly the manifest's chunks. -/

structure SpoolState where
  manifest : List (List AudioFrame)
  unacked : List AudioFrame
  deriving Repr, DecidableEq

def spoolStep (chunkFrames : Nat) (st : SpoolState) (f : AudioFrame) :
    List SpoolState × SpoolState :=
  let buf := st.unacked ++ [f]
  if buf.length = chunkFrames then
    ([⟨st.manifest, buf⟩, ⟨st.manifest ++ [buf], []⟩],
     ⟨st.manifest ++ [buf], []⟩)
  else
    ([⟨st.manifest, buf⟩], ⟨st.manifest, buf⟩)

def spoolTrace (chunkFrames : Nat) (st : SpoolState) :
    List AudioFrame → List SpoolState
  | [] => []
  | f :: fs =>
    (spoolStep chunkFrames st f).1 ++
      spoolTrace chunkFrames (spoolStep chunkFrames st f).2 fs

def spoolInit : SpoolState := ⟨[], []⟩

/-- Frame stream reconstructed by restart recovery: the manifest's chunks
in order. -/
def recoveredFrames (st : SpoolState) : List AudioFrame :=
  st.manifest.flatten

/-! ## Result Aggregator

Modelled from the spec: the Result Aggregator implementation (Task 21 of
the task list, `batch_transcriber.py`) is not part of the repository
sources.  Following §4.6 of the spec, it is a pure ordering/merge function
over an append-only result set: it declares the `FinalTranscript` ready
once every batch index `0..N` has reached a terminal state (`Succeeded` or
`Failed`), concatenates in strictly increasing batch-index order, and puts
an explicit gap marker at every `Failed` position. -/

inductive BatchOutcome where
  | succeeded (text : String) : BatchOutcome
  | failed : BatchOutcome
  deriving Repr, DecidableEq

/-- A terminal per-batch result as collected by the aggregator. -/
structure TranscriptionResult where
  idx : Nat
  outcome : BatchOutcome
  deriving Repr, DecidableEq

/-- One position of the final transcript: batch text, or an explicit gap
marker for a failed batch (never a silent omission). -/
inductive TranscriptEntry where
  | text (t : String) : TranscriptEntry
  | gap : TranscriptEntry
  deriving Repr, DecidableEq

def entryOf : BatchOutcome → TranscriptEntry
  | .succeeded t => .text t
  | .failed => .gap

def lookupResult (rs : List TranscriptionResult) (i : Nat) :
    Option TranscriptionResult :=
  rs.find? (fun r => r.idx == i)

/-- The aggregator declares the transcript ready exactly when every batch
index below `numBatches` has a collected terminal result. -/
def aggregatorReady (numBatches : Nat) (rs : List TranscriptionResult) : Bool :=
  (List.range numBatches).all (fun i => (lookupResult rs i).isSome)

/-- The `FinalTranscript`: one entry per batch index in strictly
increasing index order, or `none` while some batch is not yet terminal. -/
def aggregate (numBatches : Nat) (rs : List TranscriptionResult) :
    Option (List TranscriptEntry) :=
  if aggregatorReady numBatches rs then
    some ((List.range numBatches).map (fun i =>
      match lookupResult rs i with
      | some r => entryOf r.outcome
      | none => .gap))
  else none

/-! ## Delivery Verifier

Modelled from the spec: the Delivery Verifier implementation
(`clipboard_manager.py`, Task 23/36) is not part of the repository
sources.  Following §4.7 of the spec and the troubleshooting guide, it
writes the transcript to the primary channel (the system clipboard),
immediately reads the channel back, and compares a CRC32 checksum — not
just the length — of the written and read-back payloads; on mismatch it
writes the complete transcript to a fallback file.  Payloads are byte
lists; `channel` maps the written payload to the payload read back
(clipboard interceptors may transform it). -/

def crc32Poly : Nat := 0xEDB88320

def crc32Shift (c : Nat) : Nat :=
  if c % 2 = 1 then Nat.xor (c / 2) crc32Poly else c / 2

def crc32Bits : Nat → Nat → Nat
  | 0, c => c
  | k + 1, c => crc32Bits k (crc32Shift c)

def crc32UpdateByte (crc b : Nat) : Nat :=
  crc32Bits 8 (Nat.xor crc (b % 256))

/-- CRC32 (IEEE, reflected, polynomial `0xEDB88320`) of a byte list. -/
def crc32 (bs : List Nat) : Nat :=
  Nat.xor (bs.foldl crc32UpdateByte 0xFFFFFFFF) 0xFFFFFFFF

inductive DeliveryReport where
  | primary : DeliveryReport
  | fallbackFile (contents : List Nat) : DeliveryReport
  deriving Repr, DecidableEq

/-- Write to the primary channel, read back, compare checksums; on
mismatch deliver the full transcript through the fallback file.  The
caller is always told one of the two outcomes — never "lost". -/
def deliverTranscript (channel : List Nat → List Nat) (t : List Nat) :
    DeliveryReport :=
  let readBack := channel t
  if crc32 readBack = crc32 t then .primary else .fallbackFile t

/-! ## Batch Dispatcher

Modelled from the spec: the Batch Dispatcher implementation (Task 21,
`batch_transcriber.py`) is not part of the repository sources.  Following
§4.5 and §6 of the spec: a batch submission outcome is either text or an
error of kind `ResourceExhausted`, `Transient` (both retryable) or
`Fatal`; on a retryable error the dispatcher retries that batch exactly
once after a short delay; a second failure (or a fatal error) marks the
batch `Failed`.  `engine i attempt` is the engine's response to submission
attempt `attempt` of batch `i`; the per-batch interaction is recorded as a
`DispatchLog`. -/

inductive ErrKind where
  | resourceExhausted : ErrKind
  | transient : ErrKind
  | fatal : ErrKind
  deriving Repr, DecidableEq

def ErrKind.retryable : ErrKind → Bool
  | .resourceExhausted => true
  | .transient => true
  | .fatal => false

inductive SubmitOutcome where
  | ok (text : String) : SubmitOutcome
  | err (kind : ErrKind) : SubmitOutcome
  deriving Repr, DecidableEq

inductive BatchStatus where
  | succeeded (text : String) : BatchStatus
  | failed : BatchStatus
  deriving Repr, DecidableEq

structure DispatchLog where
  status : BatchStatus
  attempts : Nat
  delaysMs : List Nat
  deriving Repr, DecidableEq

/-- The "short delay" before the single retry (duration unspecified by
the spec). -/
def retryDelayMs : Nat := 500

def dispatchBatch (engine : Nat → SubmitOutcome) : DispatchLog :=
  match engine 0 with
  | .ok t => ⟨.succeeded t, 1, []⟩
  | .err k =>
    if k.retryable then
      match engine 1 with
      | .ok t => ⟨.succeeded t, 2, [retryDelayMs]⟩
      | .err _ => ⟨.failed, 2, [retryDelayMs]⟩
    else ⟨.failed, 1, []⟩

def statusOutcome : BatchStatus → BatchOutcome
  | .succeeded t => .succeeded t
  | .failed => .failed

/-- Terminal results of all batches of a session: batch `i` interacts only
with its own engine stream `engines i`. -/
def sessionResults (n : Nat) (engines : Nat → Nat → SubmitOutcome) :
    List TranscriptionResult :=
  (List.range n).map (fun i => ⟨i, statusOutcome (dispatchBatch (engines i)).status⟩)

/-- The session's final transcript after dispatching all `n` batches. -/
def sessionTranscript (n : Nat) (engines : Nat → Nat → SubmitOutcome) :
    Option (List TranscriptEntry) :=
  aggregate n (sessionResults n engines)

/-! ## VAD Gate

Modelled from the spec: the VAD Gate implementation (`audio_listener.py`
Task 4.2) is not part of the repository sources; blueprint §3.1.2
describes the state machine in prose.  Following §4.2 of the spec:
starting from `Silent`, `triggerOnFrames` (K) consecutive
speech-classified frames complete the `TriggerOn` transition into `Voiced`
on that frame; while `Voiced` every frame is appended to the open
segment; `triggerOffFrames` (M) consecutive silence-classified frames
complete the `TriggerOff` transition on that frame: the segment is closed,
emitted, and the gate returns to `Silent`.  Entering `Paused` force-closes
any open segment, emits an explicit gap marker and resets the gate;
resuming starts from a fresh `Silent` state.  The `TriggerOn`/`TriggerOff`
states are instantaneous: they complete within the boundary frame. -/

structure SpeechSegment where
  startSeq : Nat
  endSeq : Nat
  frames : List AudioFrame
  deriving Repr, DecidableEq

/-- Close the open segment, recording its start/end sequence numbers. -/
def closeSegment (frames : List AudioFrame) : SpeechSegment :=
  { startSeq := match frames.head? with | some f => f.seq | none => 0
    endSeq := match frames.getLast? with | some f => f.seq | none => 0
    frames := frames }

structure VadParams where
  triggerOnFrames : Nat
  triggerOffFrames : Nat
  deriving Repr, DecidableEq

inductive GateMode where
  | silent (run : List AudioFrame) : GateMode
  | voiced (seg : List AudioFrame) (silenceRun : Nat) : GateMode
  | paused : GateMode
  deriving Repr, DecidableEq

inductive GateInput where
  | frame (f : AudioFrame) : GateInput
  | pause : GateInput
  | resume : GateInput
  deriving Repr, DecidableEq

inductive GateEvent where
  | segmentClosed (s : SpeechSegment) : GateEvent
  | gapMarker : GateEvent
  deriving Repr, DecidableEq

def gateStep (p : VadParams) (m : GateMode) (inp : GateInput) :
    GateMode × List GateEvent :=
  match inp with
  | .frame f =>
    match m with
    | .silent run =>
      if f.isSpeech then
        let run' := run ++ [f]
        if p.triggerOnFrames ≤ run'.length then (.voiced run' 0, [])
        else (.silent run', [])
      else (.silent [], [])
    | .voiced seg r =>
      let seg' := seg ++ [f]
      if f.isSpeech then (.voiced seg' 0, [])
      else if p.triggerOffFrames ≤ r + 1 then
        (.silent [], [.segmentClosed (closeSegment seg')])
      else (.voiced seg' (r + 1), [])
    | .paused => (.paused, [])
  | .pause =>
    match m with
    | .silent _ => (.paused, [.gapMarker])
    | .voiced seg _ => (.paused, [.segmentClosed (closeSegment seg), .gapMarker])
    | .paused => (.paused, [])
  | .resume =>
    match m with
    | .paused => (.silent [], [])
    | other => (other, [])

def gateRun (p : VadParams) (m : GateMode) : List GateInput → GateMode × List GateEvent
  | [] => (m, [])
  | i :: is =>
    let s := gateStep p m i
    let rest := gateRun p s.1 is
    (rest.1, s.2 ++ rest.2)

def freshSilent : GateMode := .silent []

def segmentsOf (events : List GateEvent) : List SpeechSegment :=
  events.filterMap (fun e => match e with | .segmentClosed s => some s | _ => none)

/-- Frames currently buffered toward (or inside) an open segment. -/
def openFrames : GateMode → List AudioFrame
  | .silent run => run
  | .voiced seg _ => seg
  | .paused => []

/-- `fs` carries the consecutive sequence numbers `s, s+1, …`. -/
abbrev consecFrom (s : Nat) (fs : List AudioFrame) : Prop :=
  fs.map AudioFrame.seq = List.range' s fs.length

/-- `fs` is a consecutive run of frames ending at sequence number `s - 1`. -/
abbrev chainTo (s : Nat) (fs : List AudioFrame) : Prop :=
  consecFrom (s - fs.length) fs ∧ fs.length ≤ s

/-- A closed segment is a nonempty block of contiguous, strictly
increasing sequence numbers bounded by its recorded start/end numbers. -/
abbrev segWellFormed (sg : SpeechSegment) : Prop :=
  sg.frames ≠ [] ∧
  consecFrom sg.startSeq sg.frames ∧
  sg.endSeq + 1 = sg.startSeq + sg.frames.length

end InstantScribe

namespace InstantScribe

/-- C10: the watchdog's supervision loop never terminates on its own:
after every termination of the launched process, whatever its exit code,
it logs the event, sleeps 5 seconds and relaunches; the number of launches
grows without bound (no maximum retry count). -/
theorem watchdog_unconditional_restart (exits : Nat → Int) (n : Nat) :
    watchdogTrace exits (n + 1) =
      watchdogTrace exits n ++
        [.launch n, .terminated n (exits n), .sleepSeconds 5] ∧
    WatchdogEvent.launch n ∈ watchdogTrace exits (n + 1) ∧
    countLaunches (watchdogTrace exits n) = n := by
  refine ⟨rfl, ?_, ?_⟩
  · simp [watchdogTrace, watchdogIteration]
  · induction n with
    | zero => rfl
    | succ k ih =>
      simp only [watchdogTrace, watchdogIteration, countLaunches,
        List.filter_append, List.length_append] at ih ⊢
      simp [ih]

/-- C9 counterexample: when the config file holds valid JSON that is not a
dictionary (here the JSON string `"oops"`), `load_settings` returns that
non-dictionary value, so the in-memory settings after the call are not a
valid dictionary as the claim states. -/
theorem load_settings_non_dict_counterexample :
    (load_settings ⟨some (some (Json.str "oops")), true⟩).1 = Json.str "oops" ∧
    ((load_settings ⟨some (some (Json.str "oops")), true⟩).1).isObj = false :=
  ⟨rfl, rfl⟩

/-- C9 amended: `load_settings` never raises on a missing or invalid
config file — on `FileNotFoundError` or `json.JSONDecodeError` it returns
the built-in defaults dictionary and persists it via `save_settings`; when
the file parses it returns the parsed JSON value unchanged (a dictionary
only if the file holds one); absent a write error the on-disk file parses
as JSON after the call. -/
theorem load_settings_error_fallback (fs : ConfigFs) :
    ((fs.config = none ∨ fs.config = some none) →
        load_settings fs = (configDefaults, save_settings fs configDefaults)) ∧
    (∀ j, fs.config = some (some j) → load_settings fs = (j, fs)) ∧
    configDefaults.isObj = true ∧
    (fs.writable = true → ∃ j, (load_settings fs).2.config = some (some j)) := by
  obtain ⟨cfg, w⟩ := fs
  refine ⟨?_, ?_, rfl, ?_⟩
  · rintro (h | h) <;> (simp only at h; subst h; rfl)
  · intro j h
    simp only at h
    subst h
    rfl
  · intro hw
    simp only at hw
    subst hw
    match cfg with
    | none => exact ⟨configDefaults, rfl⟩
    | some none => exact ⟨configDefaults, rfl⟩
    | some (some j) => exact ⟨j, rfl⟩

/-- C9 witness: `load_settings` on a missing config file with a writable
file system returns the defaults and leaves a parsing file behind. -/
theorem load_settings_error_fallback_witness :
    load_settings ⟨none, true⟩ =
      (configDefaults, save_settings ⟨none, true⟩ configDefaults) ∧
    ∃ j, (load_settings ⟨none, true⟩).2.config = some (some j) :=
  ⟨(load_settings_error_fallback ⟨none, true⟩).1 (Or.inl rfl),
   (load_settings_error_fallback ⟨none, true⟩).2.2.2 rfl⟩

/-- C8: with the default 16 kHz mono 16-bit stream and 30 ms frame
duration, `AudioStreamer` computes `chunk_size = int(16000 * 30 / 1000) =
480` samples per frame, i.e. 960 bytes of PCM, matching the blueprint's
`vad_chunk_size_bytes` parameter. -/
theorem audioStreamer_default_chunk_size :
    audioStreamerDefault.chunk_size = 480 ∧
    audioStreamerDefault.chunk_size * bytesPerSample = 960 ∧
    audioStreamerDefault.chunk_size * bytesPerSample = vad_chunk_size_bytes := by
  refine ⟨rfl, rfl, rfl⟩

theorem spoolStep_next_frames (cf : Nat) (st : SpoolState) (f : AudioFrame) :
    ((spoolStep cf st f).2).manifest.flatten ++ ((spoolStep cf st f).2).unacked
      = st.manifest.flatten ++ st.unacked ++ [f] := by
  unfold spoolStep
  by_cases h : (st.unacked ++ [f]).length = cf
  · simp [h, List.flatten_append, List.append_assoc]
  · simp only [List.length_append, List.length_singleton] at h
    simp [h, List.append_assoc]

theorem spoolStep_next_unacked_lt (cf : Nat) (hcf : 0 < cf) (st : SpoolState)
    (f : AudioFrame) (h0 : st.unacked.length < cf) :
    ((spoolStep cf st f).2).unacked.length < cf := by
  unfold spoolStep
  by_cases h : (st.unacked ++ [f]).length = cf
  · simpa [h] using hcf
  · simp only [h, if_false]
    simp only [List.length_append, List.length_singleton] at h ⊢
    omega

theorem spoolTrace_invariant (cf : Nat) (hcf : 0 < cf) :
    ∀ (fs : List AudioFrame) (st0 : SpoolState), st0.unacked.length < cf →
      ∀ st ∈ spoolTrace cf st0 fs,
        (∃ post, st.manifest.flatten ++ st.unacked ++ post
            = st0.manifest.flatten ++ st0.unacked ++ fs) ∧
        st.unacked.length ≤ cf := by
  intro fs
  induction fs with
  | nil => intro st0 _ st hst; simp [spoolTrace] at hst
  | cons f fs ih =>
    intro st0 h0 st hst
    rw [spoolTrace, List.mem_append] at hst
    rcases hst with hmem | hmem
    · by_cases hlen : (st0.unacked ++ [f]).length = cf
      · simp only [spoolStep, hlen, if_true, List.mem_cons,
          List.mem_singleton, List.not_mem_nil, or_false] at hmem
        rcases hmem with rfl | rfl
        · exact ⟨⟨fs, by simp [List.append_assoc]⟩, le_of_eq hlen⟩
        · exact ⟨⟨fs, by simp [List.flatten_append, List.append_assoc]⟩,
            by simp⟩
      · simp only [spoolStep, hlen, if_false, List.mem_singleton] at hmem
        subst hmem
        refine ⟨⟨fs, by simp [List.append_assoc]⟩, ?_⟩
        simp only [List.length_append, List.length_singleton]
        omega
    · obtain ⟨⟨post, heq⟩, hle⟩ :=
        ih (spoolStep cf st0 f).2 (spoolStep_next_unacked_lt cf hcf st0 f h0)
          st hmem
      refine ⟨⟨post, ?_⟩, hle⟩
      rw [heq, spoolStep_next_frames]
      simp [List.append_assoc]

/-- C1: for every recording interrupted by a crash — at any
crash-observable point of the spooling of a frame stream `fs`, including
mid-flush between a chunk write and the manifest update — restart
recovery reconstructs a prefix of the delivered frame stream (in order,
nothing reordered or fabricated), and the unrecoverable remainder is at
most one spool chunk of frames (`chunkFrames`, the configured chunk
interval, default 60 s), because the manifest is updated only after the
chunk write is confirmed. -/
theorem spooler_crash_loss_bound (cf : Nat) (hcf : 0 < cf)
    (fs : List AudioFrame) (st : SpoolState)
    (hst : st ∈ spoolTrace cf spoolInit fs) :
    (recoveredFrames st ++ st.unacked) <+: fs ∧
    recoveredFrames st <+: fs ∧
    st.unacked.length ≤ cf := by
  obtain ⟨⟨post, heq⟩, hle⟩ :=
    spoolTrace_invariant cf hcf fs spoolInit (by simpa using hcf) st hst
  simp only [spoolInit, List.flatten_nil, List.nil_append] at heq
  have hpre : (recoveredFrames st ++ st.unacked) <+: fs :=
    ⟨post, by simpa [recoveredFrames, List.append_assoc] using heq⟩
  exact ⟨hpre, (List.prefix_append _ _).trans hpre, hle⟩

/-- C1 witness: spooling three frames with a two-frame chunk interval and
crashing after the third frame leaves exactly one frame — less than one
chunk — unrecoverable, and recovery yields the first chunk in order. -/
theorem spooler_crash_loss_bound_witness :
    (0 : Nat) < 2 ∧
    (⟨[[⟨0, true⟩, ⟨1, true⟩]], [⟨2, true⟩]⟩ : SpoolState) ∈
      spoolTrace 2 spoolInit [⟨0, true⟩, ⟨1, true⟩, ⟨2, true⟩] ∧
    ((recoveredFrames ⟨[[⟨0, true⟩, ⟨1, true⟩]], [⟨2, true⟩]⟩ ++
        [⟨2, true⟩]) <+: [⟨0, true⟩, ⟨1, true⟩, ⟨2, true⟩] ∧
      recoveredFrames ⟨[[⟨0, true⟩, ⟨1, true⟩]], [⟨2, true⟩]⟩ <+:
        [⟨0, true⟩, ⟨1, true⟩, ⟨2, true⟩] ∧
      ([(⟨2, true⟩ : AudioFrame)]).length ≤ 2) :=
  ⟨by decide, by decide,
   spooler_crash_loss_bound 2 (by decide) _ _ (by decide)⟩

theorem find?_eq_some_of_mem {α : Type} (p : α → Bool) (l : List α) (a : α)
    (ha : a ∈ l) (hpa : p a = true)
    (huniq : ∀ b ∈ l, p b = true → b = a) :
    l.find? p = some a := by
  induction l with
  | nil => simp at ha
  | cons x xs ih =>
    by_cases hx : p x = true
    · have hxa : x = a := huniq x (List.mem_cons_self x xs) hx
      subst hxa
      simp [List.find?_cons_of_pos, hx]
    · have hax : a ≠ x := fun h => hx (h ▸ hpa)
      have ha' : a ∈ xs := by
        rcases List.mem_cons.mp ha with h | h
        · exact absurd h hax
        · exact h
      rw [List.find?_cons_of_neg _ (by simpa using hx)]
      exact ih ha' (fun b hb hpb => huniq b (List.mem_cons_of_mem _ hb) hpb)

theorem lookupResult_isSome (rs : List TranscriptionResult) (i : Nat) :
    (lookupResult rs i).isSome = true ↔ ∃ r ∈ rs, r.idx = i := by
  unfold lookupResult
  constructor
  · intro h
    obtain ⟨r, hr⟩ := Option.isSome_iff_exists.mp h
    exact ⟨r, List.mem_of_find?_eq_some hr, by simpa using List.find?_some hr⟩
  · rintro ⟨r, hmem, hidx⟩
    cases hfind : rs.find? (fun x => x.idx == i) with
    | some r' => simp
    | none =>
      have := List.find?_eq_none.mp hfind r hmem
      simp [hidx] at this

theorem lookupResult_eq_of_unique (rs : List TranscriptionResult) (i : Nat)
    (r : TranscriptionResult) (hmem : r ∈ rs) (hidx : r.idx = i)
    (huniq : ∀ a ∈ rs, ∀ b ∈ rs, a.idx = b.idx → a = b) :
    lookupResult rs i = some r :=
  find?_eq_some_of_mem _ _ r hmem (by simp [hidx])
    (fun b hb hpb => huniq b hb r hmem (by simp at hpb; omega))

theorem lookupResult_perm (rs rs' : List TranscriptionResult)
    (hperm : rs.Perm rs')
    (huniq : ∀ a ∈ rs, ∀ b ∈ rs, a.idx = b.idx → a = b) (i : Nat) :
    lookupResult rs' i = lookupResult rs i := by
  by_cases h : ∃ r ∈ rs, r.idx = i
  · obtain ⟨r, hmem, hidx⟩ := h
    rw [lookupResult_eq_of_unique rs i r hmem hidx huniq,
        lookupResult_eq_of_unique rs' i r (hperm.mem_iff.mp hmem) hidx
          (fun a ha b hb =>
            huniq a (hperm.mem_iff.mpr ha) b (hperm.mem_iff.mpr hb))]
  · push_neg at h
    have h1 : lookupResult rs i = none :=
      List.find?_eq_none.mpr (fun a ha => by simpa using h a ha)
    have h2 : lookupResult rs' i = none :=
      List.find?_eq_none.mpr
        (fun a ha => by simpa using h a (hperm.mem_iff.mpr ha))
    rw [h1, h2]

/-- C2: the Result Aggregator declares the `FinalTranscript` ready exactly
when every batch index `0..N` has a terminal result; the transcript then
has exactly one position per batch in strictly increasing batch-index
order, a text entry for each succeeded batch and an explicit gap marker
for each failed one; and aggregation does not depend on arrival order
(any permutation of the result set aggregates identically). -/
theorem aggregator_final_transcript (n : Nat) (rs : List TranscriptionResult)
    (huniq : ∀ a ∈ rs, ∀ b ∈ rs, a.idx = b.idx → a = b) :
    ((aggregate n rs).isSome = true ↔ ∀ i, i < n → ∃ r ∈ rs, r.idx = i) ∧
    (∀ out, aggregate n rs = some out →
      out.length = n ∧
      (∀ r ∈ rs, r.idx < n → out[r.idx]? = some (entryOf r.outcome)) ∧
      (∀ r ∈ rs, r.idx < n → r.outcome = .failed →
        out[r.idx]? = some .gap)) ∧
    (∀ rs', rs.Perm rs' → aggregate n rs' = aggregate n rs) := by
  refine ⟨?_, ?_, ?_⟩
  · unfold aggregate
    by_cases hready : aggregatorReady n rs = true
    · rw [if_pos hready]
      simp only [Option.isSome_some, true_iff]
      intro i hi
      have := (List.all_eq_true.mp hready) i (List.mem_range.mpr hi)
      exact (lookupResult_isSome rs i).mp this
    · rw [if_neg hready]
      simp only [Option.isSome_none]
      constructor
      · intro h; exact absurd h (by simp)
      · intro h
        refine absurd (List.all_eq_true.mpr fun i hi => ?_) hready
        exact (lookupResult_isSome rs i).mpr (h i (List.mem_range.mp hi))
  · intro out hout
    unfold aggregate at hout
    by_cases hready : aggregatorReady n rs = true
    · rw [if_pos hready, Option.some.injEq] at hout
      subst hout
      refine ⟨by simp, ?_, ?_⟩
      · intro r hmem hlt
        rw [List.getElem?_map, List.getElem?_range hlt]
        simp only [Option.map_some']
        rw [lookupResult_eq_of_unique rs r.idx r hmem rfl huniq]
      · intro r hmem hlt hfail
        rw [List.getElem?_map, List.getElem?_range hlt]
        simp only [Option.map_some']
        rw [lookupResult_eq_of_unique rs r.idx r hmem rfl huniq]
        show some (entryOf r.outcome) = some TranscriptEntry.gap
        rw [hfail]
        rfl
    · rw [if_neg hready] at hout
      exact absurd hout (by simp)
  · intro rs' hperm
    have hl : ∀ i, lookupResult rs' i = lookupResult rs i :=
      lookupResult_perm rs rs' hperm huniq
    unfold aggregate aggregatorReady
    simp only [hl]

/-- C2 witness: two batches whose results arrived out of order (batch 1
failed, then batch 0 succeeded) aggregate to a ready transcript, and any
re-ordering of the result set aggregates identically. -/
theorem aggregator_final_transcript_witness :
    (aggregate 2 [⟨1, .failed⟩, ⟨0, .succeeded "hello"⟩]).isSome = true ∧
    aggregate 2 [⟨0, .succeeded "hello"⟩, ⟨1, .failed⟩] =
      aggregate 2 [⟨1, .failed⟩, ⟨0, .succeeded "hello"⟩] :=
  ⟨(aggregator_final_transcript 2 [⟨1, .failed⟩, ⟨0, .succeeded "hello"⟩]
      (by decide)).1.mpr (by decide),
   (aggregator_final_transcript 2 [⟨1, .failed⟩, ⟨0, .succeeded "hello"⟩]
      (by decide)).2.2 [⟨0, .succeeded "hello"⟩, ⟨1, .failed⟩] (by decide)⟩

/-- C3: the Delivery Verifier reports primary-channel success exactly when
the CRC32 checksums of the written and read-back payloads agree; on any
mismatch it delivers a fallback file whose contents equal the complete
transcript byte-for-byte; the caller always receives one of the two
reports (never "lost"); and the checksum separates payloads of equal
length, so the comparison is strictly finer than a length check. -/
theorem delivery_verifier_roundtrip (channel : List Nat → List Nat)
    (t : List Nat) :
    (deliverTranscript channel t = .primary ↔ crc32 (channel t) = crc32 t) ∧
    (crc32 (channel t) ≠ crc32 t →
      deliverTranscript channel t = .fallbackFile t) ∧
    (deliverTranscript channel t = .primary ∨
      deliverTranscript channel t = .fallbackFile t) ∧
    (∃ a b : List Nat, a.length = b.length ∧ crc32 a ≠ crc32 b) := by
  unfold deliverTranscript
  by_cases h : crc32 (channel t) = crc32 t
  · rw [if_pos h]
    exact ⟨⟨fun _ => h, fun _ => rfl⟩, fun hne => absurd h hne, Or.inl rfl,
      ⟨[0], [1], rfl, by decide⟩⟩
  · rw [if_neg h]
    refine ⟨⟨fun heq => ?_, fun heq => absurd heq h⟩, fun _ => rfl,
      Or.inr rfl, ⟨[0], [1], rfl, by decide⟩⟩
    exact absurd heq (by intro hc; cases hc)

/-- C3 witness: a channel that corrupts the payload (returns an empty
read-back) fails the checksum comparison, and the verifier delivers the
complete transcript through the fallback file. -/
theorem delivery_verifier_roundtrip_witness :
    crc32 ((fun _ => ([] : List Nat)) [0]) ≠ crc32 [0] ∧
    deliverTranscript (fun _ => ([] : List Nat)) [0] = .fallbackFile [0] :=
  ⟨by decide,
   (delivery_verifier_roundtrip (fun _ => ([] : List Nat)) [0]).2.1 (by decide)⟩

theorem lookupResult_sessionResults (n : Nat)
    (engines : Nat → Nat → SubmitOutcome) (i : Nat) (hi : i < n) :
    lookupResult (sessionResults n engines) i =
      some ⟨i, statusOutcome (dispatchBatch (engines i)).status⟩ := by
  refine find?_eq_some_of_mem _ _ _ ?_ (by simp) ?_
  · exact List.mem_map.mpr ⟨i, List.mem_range.mpr hi, rfl⟩
  · intro b hb hpb
    obtain ⟨j, _, rfl⟩ := List.mem_map.mp hb
    have hj : j = i := by simpa using hpb
    subst hj
    rfl

/-- C6: on a retryable error (`ResourceExhausted` or `Transient`) the
Batch Dispatcher retries the batch exactly once after a short delay; a
second failure marks the batch `Failed`; a fatal error fails the batch
without retry; no batch is ever submitted more than twice; each batch's
terminal state depends only on its own engine interaction (a failed batch
neither blocks the other batches nor the session); and the session's
final transcript is always produced, with an explicit gap at every failed
batch. -/
theorem dispatcher_retry_policy (n : Nat)
    (engines : Nat → Nat → SubmitOutcome) :
    (∀ i k, engines i 0 = .err k → k.retryable = true →
      (dispatchBatch (engines i)).attempts = 2 ∧
      (dispatchBatch (engines i)).delaysMs = [retryDelayMs]) ∧
    (∀ i k k', engines i 0 = .err k → k.retryable = true →
      engines i 1 = .err k' →
      (dispatchBatch (engines i)).status = .failed) ∧
    (∀ i k, engines i 0 = .err k → k.retryable = false →
      (dispatchBatch (engines i)).status = .failed ∧
      (dispatchBatch (engines i)).attempts = 1) ∧
    (∀ i, (dispatchBatch (engines i)).attempts ≤ 2) ∧
    (∀ i, i < n → (sessionResults n engines)[i]? =
      some ⟨i, statusOutcome (dispatchBatch (engines i)).status⟩) ∧
    (sessionTranscript n engines).isSome = true ∧
    (∀ i out, i < n → (dispatchBatch (engines i)).status = .failed →
      sessionTranscript n engines = some out →
      out[i]? = some .gap) := by
  refine ⟨?_, ?_, ?_, ?_, ?_, ?_, ?_⟩
  · intro i k h0 hr
    cases h1 : engines i 1 <;> simp [dispatchBatch, h0, hr, h1]
  · intro i k k' h0 hr h1
    simp [dispatchBatch, h0, hr, h1]
  · intro i k h0 hr
    simp [dispatchBatch, h0, hr]
  · intro i
    cases h0 : engines i 0 with
    | ok t => simp [dispatchBatch, h0]
    | err k =>
      cases h1 : engines i 1 <;> by_cases hr : k.retryable = true <;>
        simp [dispatchBatch, h0, h1, hr]
  · intro i hi
    unfold sessionResults
    rw [List.getElem?_map, List.getElem?_range hi]
    rfl
  · unfold sessionTranscript aggregate
    rw [if_pos]
    · rfl
    · refine List.all_eq_true.mpr (fun i hi => ?_)
      rw [lookupResult_sessionResults n engines i (List.mem_range.mp hi)]
      rfl
  · intro i out hi hfail hout
    unfold sessionTranscript aggregate at hout
    rw [if_pos] at hout
    · rw [Option.some.injEq] at hout
      subst hout
      rw [List.getElem?_map, List.getElem?_range hi, Option.map_some']
      rw [lookupResult_sessionResults n engines i hi]
      show some (entryOf (statusOutcome (dispatchBatch (engines i)).status)) = _
      rw [hfail]
      rfl
    · refine List.all_eq_true.mpr (fun j hj => ?_)
      rw [lookupResult_sessionResults n engines j (List.mem_range.mp hj)]
      rfl

/-- C6 witness: an engine that reports `ResourceExhausted` on both
attempts of its single batch is retried exactly once after the short
delay, the batch is marked failed, and the session transcript is still
produced with an explicit gap at that batch. -/
theorem dispatcher_retry_policy_witness :
    ((dispatchBatch ((fun _ _ => .err .resourceExhausted) 0)).attempts = 2 ∧
      (dispatchBatch ((fun _ _ => .err .resourceExhausted) 0)).delaysMs
        = [retryDelayMs]) ∧
    (sessionTranscript 1 (fun _ _ => .err .resourceExhausted)).isSome = true :=
  ⟨(dispatcher_retry_policy 1 (fun _ _ => .err .resourceExhausted)).1 0
      .resourceExhausted rfl rfl,
   (dispatcher_retry_policy 1 (fun _ _ => .err .resourceExhausted)).2.2.2.2.2.1⟩

theorem gateRun_nil (p : VadParams) (m : GateMode) :
    gateRun p m [] = (m, []) := rfl

theorem gateRun_cons (p : VadParams) (m : GateMode) (i : GateInput)
    (is : List GateInput) :
    gateRun p m (i :: is) =
      ((gateRun p (gateStep p m i).1 is).1,
        (gateStep p m i).2 ++ (gateRun p (gateStep p m i).1 is).2) := rfl

theorem gateStep_silent_speech (p : VadParams) (run : List AudioFrame)
    (f : AudioFrame) (hf : f.isSpeech = true) :
    gateStep p (.silent run) (.frame f) =
      if p.triggerOnFrames ≤ run.length + 1 then (.voiced (run ++ [f]) 0, [])
      else (.silent (run ++ [f]), []) := by
  simp [gateStep, hf]

theorem gateStep_silent_silence (p : VadParams) (run : List AudioFrame)
    (f : AudioFrame) (hf : f.isSpeech = false) :
    gateStep p (.silent run) (.frame f) = (.silent [], []) := by
  simp [gateStep, hf]

theorem gateStep_voiced_speech (p : VadParams) (seg : List AudioFrame)
    (r : Nat) (f : AudioFrame) (hf : f.isSpeech = true) :
    gateStep p (.voiced seg r) (.frame f) = (.voiced (seg ++ [f]) 0, []) := by
  simp [gateStep, hf]

theorem gateStep_voiced_silence (p : VadParams) (seg : List AudioFrame)
    (r : Nat) (f : AudioFrame) (hf : f.isSpeech = false) :
    gateStep p (.voiced seg r) (.frame f) =
      if p.triggerOffFrames ≤ r + 1 then
        (.silent [], [.segmentClosed (closeSegment (seg ++ [f]))])
      else (.voiced (seg ++ [f]) (r + 1), []) := by
  simp [gateStep, hf]

theorem gateRun_voiced_speech (p : VadParams) :
    ∀ (fs seg : List AudioFrame), (∀ f ∈ fs, f.isSpeech = true) →
      gateRun p (.voiced seg 0) (fs.map .frame) = (.voiced (seg ++ fs) 0, []) := by
  intro fs
  induction fs with
  | nil => intro seg _; simp [gateRun_nil]
  | cons f fs ih =>
    intro seg hall
    have hf : f.isSpeech = true := hall f (List.mem_cons_self f fs)
    rw [List.map_cons, gateRun_cons, gateStep_voiced_speech p seg 0 f hf,
      ih (seg ++ [f]) (fun g hg => hall g (List.mem_cons_of_mem f hg))]
    simp

theorem gateRun_silent_nil_silence (p : VadParams) :
    ∀ gs : List AudioFrame, (∀ f ∈ gs, f.isSpeech = false) →
      gateRun p (.silent []) (gs.map .frame) = (.silent [], []) := by
  intro gs
  induction gs with
  | nil => intro _; simp [gateRun_nil]
  | cons g gs ih =>
    intro hall
    have hg : g.isSpeech = false := hall g (List.mem_cons_self g gs)
    rw [List.map_cons, gateRun_cons, gateStep_silent_silence p [] g hg,
      ih (fun f hf => hall f (List.mem_cons_of_mem g hf))]
    simp

theorem gateRun_silent_all_speech (p : VadParams) :
    ∀ (fs run : List AudioFrame), (∀ f ∈ fs, f.isSpeech = true) →
      run.length < p.triggerOnFrames →
      gateRun p (.silent run) (fs.map .frame) =
        (if run.length + fs.length < p.triggerOnFrames then
            GateMode.silent (run ++ fs)
          else GateMode.voiced (run ++ fs) 0, []) := by
  intro fs
  induction fs with
  | nil =>
    intro run _ hrun
    simp only [List.map_nil, List.length_nil, Nat.add_zero, List.append_nil]
    rw [if_pos hrun, gateRun_nil]
  | cons f fs ih =>
    intro run hall hrun
    have hf : f.isSpeech = true := hall f (List.mem_cons_self f fs)
    rw [List.map_cons, gateRun_cons, gateStep_silent_speech p run f hf]
    by_cases htr : p.triggerOnFrames ≤ run.length + 1
    · rw [if_pos htr]
      rw [gateRun_voiced_speech p fs (run ++ [f])
        (fun g hg => hall g (List.mem_cons_of_mem f hg))]
      rw [if_neg (by simp only [List.length_cons]; omega)]
      simp [List.append_assoc]
    · rw [if_neg htr]
      rw [ih (run ++ [f]) (fun g hg => hall g (List.mem_cons_of_mem f hg))
        (by simp only [List.length_append, List.length_singleton]; omega)]
      simp only [List.length_append, List.length_singleton, List.length_cons,
        List.length_nil, List.append_assoc, List.singleton_append]
      split_ifs <;> first | rfl | omega

theorem gateRun_voiced_all_silence (p : VadParams) :
    ∀ (gs seg : List AudioFrame) (r : Nat), (∀ f ∈ gs, f.isSpeech = false) →
      r < p.triggerOffFrames →
      gateRun p (.voiced seg r) (gs.map .frame) =
        if r + gs.length < p.triggerOffFrames then
          (.voiced (seg ++ gs) (r + gs.length), [])
        else
          (.silent [],
            [.segmentClosed
              (closeSegment (seg ++ gs.take (p.triggerOffFrames - r)))]) := by
  intro gs
  induction gs with
  | nil =>
    intro seg r _ hr
    simp only [List.map_nil, List.length_nil, Nat.add_zero, List.append_nil]
    rw [if_pos hr, gateRun_nil]
  | cons g gs ih =>
    intro seg r hall hr
    have hg : g.isSpeech = false := hall g (List.mem_cons_self g gs)
    rw [List.map_cons, gateRun_cons, gateStep_voiced_silence p seg r g hg]
    by_cases htr : p.triggerOffFrames ≤ r + 1
    · rw [if_pos htr]
      rw [gateRun_silent_nil_silence p gs
        (fun f hf => hall f (List.mem_cons_of_mem g hf))]
      rw [if_neg (by simp only [List.length_cons]; omega)]
      rw [show p.triggerOffFrames - r = 1 from by omega]
      simp [List.take]
    · rw [if_neg htr]
      rw [ih (seg ++ [g]) (r + 1)
        (fun f hf => hall f (List.mem_cons_of_mem g hf)) (by omega)]
      rw [show p.triggerOffFrames - r = (p.triggerOffFrames - (r + 1)) + 1 from
        by omega]
      simp only [List.length_cons, List.take_succ_cons, List.append_assoc,
        List.singleton_append]
      rw [show r + 1 + gs.length = r + (gs.length + 1) from by omega]
      split_ifs <;> simp

/-- C4: the VAD Gate realises the four-state machine `Silent → TriggerOn →
Voiced → TriggerOff → Silent`: from `Silent`, K consecutive
speech-classified frames complete the transition into `Voiced` exactly on
the K-th frame (fewer than K leave the gate `Silent`), with all frames of
and after the trigger run in the open segment; from `Voiced`, M
consecutive silence-classified frames close the segment, emit it and
return the gate to `Silent` exactly on the M-th frame (fewer than M keep
the segment open); and the trigger-off threshold default is 700 ms
(`silence_threshold_ms` in the configuration defaults). -/
theorem vad_gate_state_machine (p : VadParams)
    (hK : 0 < p.triggerOnFrames) (hM : 0 < p.triggerOffFrames) :
    (∀ fs : List AudioFrame, (∀ f ∈ fs, f.isSpeech = true) →
        fs.length < p.triggerOnFrames →
        gateRun p freshSilent (fs.map .frame) = (.silent fs, [])) ∧
    (∀ fs : List AudioFrame, (∀ f ∈ fs, f.isSpeech = true) →
        fs.length = p.triggerOnFrames →
        gateRun p freshSilent (fs.map .frame) = (.voiced fs 0, [])) ∧
    (∀ (seg gs : List AudioFrame), (∀ f ∈ gs, f.isSpeech = false) →
        gs.length < p.triggerOffFrames →
        gateRun p (.voiced seg 0) (gs.map .frame) =
          (.voiced (seg ++ gs) gs.length, [])) ∧
    (∀ (seg gs : List AudioFrame), (∀ f ∈ gs, f.isSpeech = false) →
        gs.length = p.triggerOffFrames →
        gateRun p (.voiced seg 0) (gs.map .frame) =
          (.silent [], [.segmentClosed (closeSegment (seg ++ gs))])) ∧
    configDefaults.lookup "silence_threshold_ms" = some (.num 700) := by
  refine ⟨?_, ?_, ?_, ?_, rfl⟩
  · intro fs hall hlen
    rw [show GateMode.silent fs = GateMode.silent ([] ++ fs) from by simp]
    unfold freshSilent
    rw [gateRun_silent_all_speech p fs [] hall (by simpa using hK),
      if_pos (by simpa using hlen)]
  · intro fs hall hlen
    rw [show GateMode.voiced fs 0 = GateMode.voiced ([] ++ fs) 0 from by simp]
    unfold freshSilent
    rw [gateRun_silent_all_speech p fs [] hall (by simpa using hK),
      if_neg (by simp [hlen])]
  · intro seg gs hall hlen
    rw [gateRun_voiced_all_silence p gs seg 0 hall hM,
      if_pos (by simpa using hlen)]
    rw [Nat.zero_add]
  · intro seg gs hall hlen
    rw [gateRun_voiced_all_silence p gs seg 0 hall hM,
      if_neg (by simp [hlen])]
    rw [Nat.sub_zero, ← hlen, List.take_length]

/-- C4 witness: with K = 2 and M = 3, two consecutive speech frames flip
the gate to `Voiced` on the second frame, and three consecutive silence
frames then close and emit the segment on the third frame. -/
theorem vad_gate_state_machine_witness :
    gateRun ⟨2, 3⟩ freshSilent
        ([⟨0, true⟩, ⟨1, true⟩].map .frame) =
      (.voiced [⟨0, true⟩, ⟨1, true⟩] 0, []) ∧
    gateRun ⟨2, 3⟩ (.voiced [⟨0, true⟩, ⟨1, true⟩] 0)
        ([⟨2, false⟩, ⟨3, false⟩, ⟨4, false⟩].map .frame) =
      (.silent [],
        [.segmentClosed (closeSegment
          ([⟨0, true⟩, ⟨1, true⟩] ++ [⟨2, false⟩, ⟨3, false⟩, ⟨4, false⟩]))]) :=
  ⟨(vad_gate_state_machine ⟨2, 3⟩ (by decide) (by decide)).2.1
      [⟨0, true⟩, ⟨1, true⟩] (by decide) (by decide),
   (vad_gate_state_machine ⟨2, 3⟩ (by decide) (by decide)).2.2.2.1
      [⟨0, true⟩, ⟨1, true⟩] [⟨2, false⟩, ⟨3, false⟩, ⟨4, false⟩]
      (by decide) (by decide)⟩

theorem range'_concat_one (s n : Nat) :
    List.range' s (n + 1) = List.range' s n ++ [s + n] :=
  List.range'_1_concat s n

theorem range'_succ_one (s n : Nat) :
    List.range' s (n + 1) = s :: List.range' (s + 1) n :=
  List.range'_succ s n 1

theorem segmentsOf_append (a b : List GateEvent) :
    segmentsOf (a ++ b) = segmentsOf a ++ segmentsOf b :=
  List.filterMap_append a b _

theorem chainTo_nil (s : Nat) : chainTo s [] :=
  ⟨rfl, Nat.zero_le s⟩

theorem chainTo_append (s : Nat) (fs : List AudioFrame) (f : AudioFrame)
    (h : chainTo s fs) (hf : f.seq = s) : chainTo (s + 1) (fs ++ [f]) := by
  obtain ⟨hc, hle⟩ := h
  refine ⟨?_, by simp only [List.length_append, List.length_singleton]; omega⟩
  show List.map AudioFrame.seq (fs ++ [f]) =
    List.range' (s + 1 - (fs ++ [f]).length) ((fs ++ [f]).length)
  rw [List.map_append, hc, List.map_singleton, hf]
  rw [List.length_append, List.length_singleton,
    show s + 1 - (fs.length + 1) = s - fs.length from by omega,
    range'_concat_one]
  rw [Nat.sub_add_cancel hle]

theorem closeSegment_wellFormed (a : Nat) (frames : List AudioFrame)
    (hc : consecFrom a frames) (hne : frames ≠ []) :
    segWellFormed (closeSegment frames) := by
  obtain ⟨k, hk⟩ : ∃ k, frames.length = k + 1 := by
    cases frames with
    | nil => exact absurd rfl hne
    | cons f0 rest => exact ⟨rest.length, by simp⟩
  have hlast : frames.getLast?.map AudioFrame.seq = some (a + k) := by
    rw [← List.getLast?_map]
    rw [show frames.map AudioFrame.seq = List.range' a k ++ [a + k] from by
      rw [hc, hk, range'_concat_one]]
    exact List.getLast?_concat _
  obtain ⟨flast, hfl, hflseq⟩ := Option.map_eq_some'.mp hlast
  cases frames with
  | nil => exact absurd rfl hne
  | cons f0 rest =>
    have hf0 : f0.seq = a := by
      have h := hc
      simp only [List.map_cons, List.length_cons, range'_succ_one] at h
      exact (List.cons_eq_cons.mp h).1
    have hstart : (closeSegment (f0 :: rest)).startSeq = f0.seq := rfl
    have hend : (closeSegment (f0 :: rest)).endSeq = flast.seq := by
      simp [closeSegment, hfl]
    refine ⟨List.cons_ne_nil f0 rest, ?_, ?_⟩
    · show consecFrom (closeSegment (f0 :: rest)).startSeq
        ((closeSegment (f0 :: rest)).frames)
      rw [show (closeSegment (f0 :: rest)).frames = f0 :: rest from rfl,
        hstart, hf0]
      exact hc
    · rw [hend, hstart, hflseq, hf0,
        show (closeSegment (f0 :: rest)).frames = f0 :: rest from rfl, hk]
      omega

theorem gateStep_frame_chain (p : VadParams) (m : GateMode) (f : AudioFrame)
    (s : Nat) (hchain : chainTo s (openFrames m)) (hfseq : f.seq = s) :
    chainTo (s + 1) (openFrames (gateStep p m (.frame f)).1) ∧
    ∀ sg ∈ segmentsOf (gateStep p m (.frame f)).2, segWellFormed sg := by
  cases m with
  | silent run =>
    by_cases hsp : f.isSpeech = true
    · rw [gateStep_silent_speech p run f hsp]
      by_cases htr : p.triggerOnFrames ≤ run.length + 1
      · rw [if_pos htr]
        exact ⟨chainTo_append s run f hchain hfseq, by simp [segmentsOf]⟩
      · rw [if_neg htr]
        exact ⟨chainTo_append s run f hchain hfseq, by simp [segmentsOf]⟩
    · have hsp' : f.isSpeech = false := by simpa using hsp
      rw [gateStep_silent_silence p run f hsp']
      exact ⟨chainTo_nil _, by simp [segmentsOf]⟩
  | voiced seg r =>
    by_cases hsp : f.isSpeech = true
    · rw [gateStep_voiced_speech p seg r f hsp]
      exact ⟨chainTo_append s seg f hchain hfseq, by simp [segmentsOf]⟩
    · have hsp' : f.isSpeech = false := by simpa using hsp
      rw [gateStep_voiced_silence p seg r f hsp']
      by_cases htr : p.triggerOffFrames ≤ r + 1
      · rw [if_pos htr]
        refine ⟨chainTo_nil _, ?_⟩
        intro sg hsg
        have hsg' : sg = closeSegment (seg ++ [f]) := by
          simpa [segmentsOf] using hsg
        subst hsg'
        have hch := chainTo_append s seg f hchain hfseq
        exact closeSegment_wellFormed _ (seg ++ [f]) hch.1 (by simp)
      · rw [if_neg htr]
        exact ⟨chainTo_append s seg f hchain hfseq, by simp [segmentsOf]⟩
  | paused =>
    exact ⟨chainTo_nil _, by simp [gateStep, segmentsOf]⟩

theorem gateRun_segments_wellFormed (p : VadParams) :
    ∀ (fs : List AudioFrame) (s : Nat) (m : GateMode),
      consecFrom s fs → chainTo s (openFrames m) →
      ∀ sg ∈ segmentsOf (gateRun p m (fs.map .frame)).2, segWellFormed sg := by
  intro fs
  induction fs with
  | nil => intro s m _ _ sg hsg; simp [gateRun_nil, segmentsOf] at hsg
  | cons f fs ih =>
    intro s m hconsec hchain sg hsg
    have hparts : f.seq = s ∧ consecFrom (s + 1) fs := by
      have h := hconsec
      simp only [List.map_cons, List.length_cons, range'_succ_one] at h
      exact ⟨(List.cons_eq_cons.mp h).1, (List.cons_eq_cons.mp h).2⟩
    rw [List.map_cons, gateRun_cons, segmentsOf_append] at hsg
    obtain hstep := gateStep_frame_chain p m f s hchain hparts.1
    rcases List.mem_append.mp hsg with h0 | hrest
    · exact hstep.2 sg h0
    · exact ih (s + 1) _ hparts.2 hstep.1 sg hrest

/-- C7: for every sequence of consecutively numbered frames delivered to
the VAD Gate, every emitted `SpeechSegment` is a nonempty ordered block
of frames whose sequence numbers are contiguous and strictly increasing,
bounded by the segment's recorded start and end sequence numbers. -/
theorem vad_segments_contiguous (p : VadParams) (s0 : Nat)
    (fs : List AudioFrame) (hconsec : consecFrom s0 fs) :
    ∀ sg ∈ segmentsOf (gateRun p freshSilent (fs.map .frame)).2,
      segWellFormed sg :=
  gateRun_segments_wellFormed p fs s0 freshSilent hconsec (chainTo_nil s0)

/-- C7 witness: with K = M = 1, frames 5 (speech) and 6 (silence) emit the
segment with frames 5–6, recorded start 5 and end 6, contiguous and
strictly increasing. -/
theorem vad_segments_contiguous_witness :
    consecFrom 5 [⟨5, true⟩, ⟨6, false⟩] ∧
    closeSegment [⟨5, true⟩, ⟨6, false⟩] ∈
      segmentsOf (gateRun ⟨1, 1⟩ freshSilent
        ([⟨5, true⟩, ⟨6, false⟩].map .frame)).2 ∧
    segWellFormed (closeSegment [⟨5, true⟩, ⟨6, false⟩]) :=
  ⟨by decide, by decide,
   vad_segments_contiguous ⟨1, 1⟩ 5 [⟨5, true⟩, ⟨6, false⟩] (by decide)
     (closeSegment [⟨5, true⟩, ⟨6, false⟩]) (by decide)⟩

theorem gateStep_open_sub (p : VadParams) (m : GateMode) (i : GateInput) :
    ∀ g ∈ openFrames (gateStep p m i).1, i = .frame g ∨ g ∈ openFrames m := by
  intro g hg
  cases i with
  | frame f =>
    cases m with
    | silent run =>
      by_cases hsp : f.isSpeech = true
      · rw [gateStep_silent_speech p run f hsp] at hg
        by_cases htr : p.triggerOnFrames ≤ run.length + 1
        · rw [if_pos htr] at hg
          simp only [openFrames] at hg
          rcases List.mem_append.mp hg with h | h
          · exact Or.inr h
          · simp at h; subst h; exact Or.inl rfl
        · rw [if_neg htr] at hg
          simp only [openFrames] at hg
          rcases List.mem_append.mp hg with h | h
          · exact Or.inr h
          · simp at h; subst h; exact Or.inl rfl
      · have hsp' : f.isSpeech = false := by simpa using hsp
        rw [gateStep_silent_silence p run f hsp'] at hg
        simp [openFrames] at hg
    | voiced seg r =>
      by_cases hsp : f.isSpeech = true
      · rw [gateStep_voiced_speech p seg r f hsp] at hg
        simp only [openFrames] at hg
        rcases List.mem_append.mp hg with h | h
        · exact Or.inr h
        · simp at h; subst h; exact Or.inl rfl
      · have hsp' : f.isSpeech = false := by simpa using hsp
        rw [gateStep_voiced_silence p seg r f hsp'] at hg
        by_cases htr : p.triggerOffFrames ≤ r + 1
        · rw [if_pos htr] at hg; simp [openFrames] at hg
        · rw [if_neg htr] at hg
          simp only [openFrames] at hg
          rcases List.mem_append.mp hg with h | h
          · exact Or.inr h
          · simp at h; subst h; exact Or.inl rfl
    | paused => simp [gateStep, openFrames] at hg
  | pause => cases m <;> simp [gateStep, openFrames] at hg
  | resume =>
    cases m with
    | silent run => exact Or.inr hg
    | voiced seg r => exact Or.inr hg
    | paused => simp [gateStep, openFrames] at hg

theorem gateStep_seg_frames_sub (p : VadParams) (m : GateMode) (i : GateInput) :
    ∀ sg ∈ segmentsOf (gateStep p m i).2, ∀ g ∈ sg.frames,
      i = .frame g ∨ g ∈ openFrames m := by
  intro sg hsg g hgf
  cases i with
  | frame f =>
    cases m with
    | silent run =>
      by_cases hsp : f.isSpeech = true
      · rw [gateStep_silent_speech p run f hsp] at hsg
        by_cases htr : p.triggerOnFrames ≤ run.length + 1
        · rw [if_pos htr] at hsg; simp [segmentsOf] at hsg
        · rw [if_neg htr] at hsg; simp [segmentsOf] at hsg
      · have hsp' : f.isSpeech = false := by simpa using hsp
        rw [gateStep_silent_silence p run f hsp'] at hsg
        simp [segmentsOf] at hsg
    | voiced seg r =>
      by_cases hsp : f.isSpeech = true
      · rw [gateStep_voiced_speech p seg r f hsp] at hsg
        simp [segmentsOf] at hsg
      · have hsp' : f.isSpeech = false := by simpa using hsp
        rw [gateStep_voiced_silence p seg r f hsp'] at hsg
        by_cases htr : p.triggerOffFrames ≤ r + 1
        · rw [if_pos htr] at hsg
          have hsg' : sg = closeSegment (seg ++ [f]) := by
            simpa [segmentsOf] using hsg
          subst hsg'
          have hgf' : g ∈ seg ++ [f] := hgf
          rcases List.mem_append.mp hgf' with h | h
          · exact Or.inr h
          · simp at h; subst h; exact Or.inl rfl
        · rw [if_neg htr] at hsg; simp [segmentsOf] at hsg
    | paused => simp [gateStep, segmentsOf] at hsg
  | pause =>
    cases m with
    | silent run => simp [gateStep, segmentsOf] at hsg
    | voiced seg r =>
      have hsg' : sg = closeSegment seg := by
        simpa [gateStep, segmentsOf] using hsg
      subst hsg'
      exact Or.inr hgf
    | paused => simp [gateStep, segmentsOf] at hsg
  | resume => cases m <;> simp [gateStep, segmentsOf] at hsg

theorem gateRun_segment_frames_sub (p : VadParams) :
    ∀ (ins : List GateInput) (m : GateMode),
      ∀ sg ∈ segmentsOf (gateRun p m ins).2, ∀ g ∈ sg.frames,
        (GateInput.frame g) ∈ ins ∨ g ∈ openFrames m := by
  intro ins
  induction ins with
  | nil => intro m sg hsg; simp [gateRun_nil, segmentsOf] at hsg
  | cons i is ih =>
    intro m sg hsg g hgf
    rw [gateRun_cons, segmentsOf_append] at hsg
    rcases List.mem_append.mp hsg with h0 | hrest
    · rcases gateStep_seg_frames_sub p m i sg h0 g hgf with h | h
      · exact Or.inl (h ▸ List.mem_cons_self i is)
      · exact Or.inr h
    · rcases ih (gateStep p m i).1 sg hrest g hgf with h | h
      · exact Or.inl (List.mem_cons_of_mem i h)
      · rcases gateStep_open_sub p m i g h with h' | h'
        · exact Or.inl (h' ▸ List.mem_cons_self i is)
        · exact Or.inr h'

/-- C5: no `SpeechSegment` ever spans a pause boundary: when no frame
with a sequence number in `lo..hi` is delivered to the gate (the frames
skipped across a pause), no emitted segment contains any frame in
`lo..hi`; entering `Paused` force-closes the open segment and emits an
explicit gap marker; resuming restarts the gate from a fresh `Silent`
state; and every pause from a non-paused state records the gap marker,
never a silent skip. -/
theorem vad_pause_isolation (p : VadParams) (lo hi : Nat)
    (ins : List GateInput)
    (hgap : ∀ f : AudioFrame, .frame f ∈ ins → ¬(lo ≤ f.seq ∧ f.seq ≤ hi)) :
    (∀ sg ∈ segmentsOf (gateRun p freshSilent ins).2, ∀ f ∈ sg.frames,
        ¬(lo ≤ f.seq ∧ f.seq ≤ hi)) ∧
    (∀ (seg : List AudioFrame) (r : Nat),
        gateStep p (.voiced seg r) .pause =
          (.paused, [.segmentClosed (closeSegment seg), .gapMarker])) ∧
    (gateStep p .paused .resume = (.silent [], [])) ∧
    (∀ m : GateMode, m ≠ .paused → .gapMarker ∈ (gateStep p m .pause).2) := by
  refine ⟨?_, fun seg r => rfl, rfl, ?_⟩
  · intro sg hsg f hf
    rcases gateRun_segment_frames_sub p ins freshSilent sg hsg f hf with h | h
    · exact hgap f h
    · simp [freshSilent, openFrames] at h
  · intro m hm
    cases m with
    | silent run => simp [gateStep]
    | voiced seg r => simp [gateStep]
    | paused => exact absurd rfl hm

/-- C5 witness: pausing at frame 1000 and resuming at frame 1500 — no
frame numbered 1000–1499 reaches the gate — force-closes the open
segment with a gap marker, and resume restarts from a fresh `Silent`
state. -/
theorem vad_pause_isolation_witness :
    gateStep ⟨1, 1⟩ (.voiced [⟨999, true⟩] 0) .pause =
      (.paused, [.segmentClosed (closeSegment [⟨999, true⟩]), .gapMarker]) ∧
    gateStep ⟨1, 1⟩ .paused .resume = (.silent [], []) ∧
    GateEvent.gapMarker ∈ (gateStep ⟨1, 1⟩ (.voiced [⟨999, true⟩] 0) .pause).2 :=
  ⟨(vad_pause_isolation ⟨1, 1⟩ 1000 1499
      [.frame ⟨999, true⟩, .pause, .resume, .frame ⟨1500, true⟩,
        .frame ⟨1501, false⟩]
      (by intro f hf; simp at hf; rcases hf with rfl | rfl | rfl <;> decide)).2.1
      [⟨999, true⟩] 0,
   (vad_pause_isolation ⟨1, 1⟩ 1000 1499
      [.frame ⟨999, true⟩, .pause, .resume, .frame ⟨1500, true⟩,
        .frame ⟨1501, false⟩]
      (by intro f hf; simp at hf; rcases hf with rfl | rfl | rfl <;> decide)).2.2.1,
   (vad_pause_isolation ⟨1, 1⟩ 1000 1499
      [.frame ⟨999, true⟩, .pause, .resume, .frame ⟨1500, true⟩,
        .frame ⟨1501, false⟩]
      (by intro f hf; simp at hf; rcases hf with rfl | rfl | rfl <;> decide)).2.2.2
      (.voiced [⟨999, true⟩] 0) (by decide)⟩

end InstantScribe
